import Mathlib

/-!
Shallow embedding of the ZeroThetaDashboard trade-reconciliation pipeline.

The embedding follows `data_collector.py` (function `collect_daily_results`)
and the profit re-pairing part of `load_data` in `streamlit-dashboard.py`.
Prices are modelled as rationals, timestamps as naturals (only their order
and equality matter to the algorithm), and sides/symbols/rights as strings
with the source's literal encodings ("SLD"/"BOT", "P"/"C").
-/

/-- One execution record (a fill) as consumed by `collect_daily_results`:
`permId`, `time`, `side` and `price` come from `e.execution`, while
`symbol`, `strike` and `right` come from `e.contract` (the latter two are
optional attributes, probed with `hasattr` in the source). -/
structure ExecRecord where
  permId : Nat
  time : Nat
  side : String
  price : Rat
  symbol : String
  strike : Option Rat
  right : Option String
deriving DecidableEq

/-- One output trade row, with the fields the source writes to the CSV.
`date` and `entry_time` both come from the chosen execution's timestamp
(string formatting of dates is out of scope, the timestamp is kept). -/
structure Trade where
  date : Nat
  trade_type : String
  symbol : String
  strikes : String
  entry_action : String
  entry_time : Nat
  entry_price : Rat
  exit_action : String
  exit_price : Option Rat
  profit : Rat
  status : String
  strategy : String
deriving DecidableEq

/-- Insertion into a Python-dict key list: keys are kept in first-appearance
order, duplicates are dropped (models `if k not in d: d[k] = []`). -/
def keyInsert {α : Type} [DecidableEq α] (ks : List α) (k : α) : List α :=
  if k ∈ ks then ks else ks ++ [k]

/-- The distinct execution times of a list of fills, in first-appearance
order (models the `times` dict keys of the source). -/
def timeKeys (l : List ExecRecord) : List Nat :=
  l.foldl (fun ks e => keyInsert ks e.time) []

/-- The time-buckets of a list of fills: for each distinct time, the fills
carrying that time, in list order (models `list(times.values())`). -/
def timeGroups (l : List ExecRecord) : List (List ExecRecord) :=
  (timeKeys l).map (fun t => l.filter (fun e => e.time == t))

/-- Fills of one permId group sorted by execution time; Python's `list.sort`
is stable, as is insertion sort. -/
def sortByTime (l : List ExecRecord) : List ExecRecord :=
  List.insertionSort (fun a b => a.time ≤ b.time) l

/-- The combo execution chosen by the classification loop: the loop sets
`combo_exec = e` for every fill with strictly negative price, so the value
left at the end is the last such fill. -/
def comboOf (opening : List ExecRecord) : Option ExecRecord :=
  (opening.filter (fun e => decide (e.price < 0))).getLast?

/-- The leg executions: every fill of the bucket whose price is not strictly
negative (the `else` branch of the classification loop). -/
def legsOf (opening : List ExecRecord) : List ExecRecord :=
  opening.filter (fun e => !(decide (e.price < 0)))

/-- Representing contract/execution data plus entry price and action derived
from the opening bucket. -/
structure EntryInfo where
  symbol : String
  time : Nat
  price : Rat
  action : String
deriving DecidableEq

/-- Entry derivation of the source: if a combo execution exists, take
`abs(price)` and its side from it; otherwise fall back to the legs, with
`credit_received` the sum of SLD leg prices, `debit_paid` the sum of BOT leg
prices, `entry_price = abs(credit_received - debit_paid)` and
`entry_action = 'BOT' if credit_received > debit_paid else 'SLD'`.
Returns `none` only for an empty bucket (which the caller never produces). -/
def entryInfo (opening : List ExecRecord) : Option EntryInfo :=
  match comboOf opening with
  | some c => some ⟨c.symbol, c.time, |c.price|, c.side⟩
  | none =>
    match opening.head? with
    | none => none
    | some first =>
      let soldLegs := (legsOf opening).filter (fun e => e.side == "SLD")
      let boughtLegs := (legsOf opening).filter (fun e => e.side == "BOT")
      let credit := (soldLegs.map (fun e => e.price)).sum
      let debit := (boughtLegs.map (fun e => e.price)).sum
      some ⟨first.symbol, first.time, |credit - debit|,
            if credit > debit then "BOT" else "SLD"⟩

/-- Sum of the prices of the SLD fills of a bucket. -/
def openingCredit (l : List ExecRecord) : Rat :=
  ((l.filter (fun e => e.side == "SLD")).map (fun e => e.price)).sum

/-- Sum of the prices of the BOT fills of a bucket. -/
def openingDebit (l : List ExecRecord) : Rat :=
  ((l.filter (fun e => e.side == "BOT")).map (fun e => e.price)).sum

/-- Python's `int()` applied to a rational: truncation toward zero. -/
def truncInt (q : Rat) : Int :=
  if 0 ≤ q then ⌊q⌋ else ⌈q⌉

/-- The strikes collected from every fill of the opening bucket that carries
a strike attribute, converted with `int()`. -/
def collectStrikes (opening : List ExecRecord) : List Int :=
  opening.filterMap (fun e => e.strike.map truncInt)

/-- The collected strikes sorted ascending (`strikes.sort()`). -/
def sortedStrikes (opening : List ExecRecord) : List Int :=
  List.insertionSort (fun a b => a ≤ b) (collectStrikes opening)

/-- The rendered strikes column: the two smallest strikes as "low/high" when
two or more exist, the single strike when one exists, "unknown" otherwise. -/
def strikesStr (opening : List ExecRecord) : String :=
  match sortedStrikes opening with
  | [] => "unknown"
  | [a] => toString a
  | a :: b :: _ => toString a ++ "/" ++ toString b

/-- Trade-type heuristic: "Bull Put" if any fill carries right "P", else
"Bear Call" if any carries "C", else "unknown". -/
def tradeTypeOf (opening : List ExecRecord) : String :=
  let rights := opening.filterMap (fun e => e.right)
  if "P" ∈ rights then "Bull Put"
  else if "C" ∈ rights then "Bear Call"
  else "unknown"

/-- Exit price and action derived from the closing bucket. -/
structure ExitInfo where
  price : Rat
  action : String
deriving DecidableEq

/-- Sum of prices of SLD fills with strictly positive price in a closing
bucket (`closing_credit` in the source). -/
def closingCreditOf (closing : List ExecRecord) : Rat :=
  ((closing.filter (fun e => e.side == "SLD" && decide (e.price > 0))).map
    (fun e => e.price)).sum

/-- Sum of prices of BOT fills with strictly positive price in a closing
bucket (`closing_debit` in the source). -/
def closingDebitOf (closing : List ExecRecord) : Rat :=
  ((closing.filter (fun e => e.side == "BOT" && decide (e.price > 0))).map
    (fun e => e.price)).sum

/-- Exit derivation of the source: the first fill with side SLD and strictly
negative price is the closing combo (`exit_price = abs(price)`,
`exit_action = 'SLD'`); otherwise the fallback computes
`exit_price = closing_debit - closing_credit` (not absolute-valued) and
`exit_action = 'SLD' if closing_credit > closing_debit else 'BOT'`. -/
def exitInfo (closing : List ExecRecord) : ExitInfo :=
  match (closing.filter (fun e => e.side == "SLD" && decide (e.price < 0))).head? with
  | some c => ⟨|c.price|, "SLD"⟩
  | none =>
    let cc := closingCreditOf closing
    let cd := closingDebitOf closing
    ⟨cd - cc, if cc > cd then "SLD" else "BOT"⟩

/-- Processing of one permId group: sort by time, bucket by distinct time,
derive entry data from the first bucket, strikes and trade type from all its
fills, and exit data plus profit from the second bucket when it exists. -/
def processGroup (strategy : String) (execs : List ExecRecord) : Option Trade :=
  let sorted := sortByTime execs
  match timeGroups sorted with
  | [] => none
  | opening :: restGroups =>
    match entryInfo opening with
    | none => none
    | some ei =>
      let strikes := strikesStr opening
      let ttype := tradeTypeOf opening
      match restGroups.head? with
      | some closing =>
        let x := exitInfo closing
        some ⟨ei.time, ttype, ei.symbol, strikes, ei.action, ei.time, ei.price,
              x.action, some x.price, (ei.price - x.price) * 100, "closed", strategy⟩
      | none =>
        some ⟨ei.time, ttype, ei.symbol, strikes, ei.action, ei.time, ei.price,
              "", none, 0, "open", strategy⟩

/-- The distinct permIds of the fill collection, in first-appearance order
(models the `trades_by_perm_id` dict keys). -/
def permKeys (execs : List ExecRecord) : List Nat :=
  execs.foldl (fun ks e => keyInsert ks e.permId) []

/-- The fills of one permId, in input order. -/
def permGroup (execs : List ExecRecord) (p : Nat) : List ExecRecord :=
  execs.filter (fun e => e.permId == p)

/-- The full reconciliation run: one trade per permId group, in dict order. -/
def collectTrades (strategy : String) (execs : List ExecRecord) : List Trade :=
  (permKeys execs).filterMap (fun p => processGroup strategy (permGroup execs p))

/-- Two-digit zero-padded rendering of a number below 100. -/
def pad2 (n : Nat) : String :=
  if n < 10 then "0" ++ toString n else toString n

/-- Cents of a price: two-decimal rounding modelled as floor of x*100 + 1/2
(exact for every price that is a whole number of cents, which is the only
regime the formatting claims exercise). -/
def centsOf (p : Rat) : Int :=
  ⌊p * 100 + 1 / 2⌋

/-- Magnitude part of the two-decimal rendering of a number of cents. -/
def fmtNat (n : Nat) : String :=
  toString (n / 100) ++ "." ++ pad2 (n % 100)

/-- Two-decimal string of a price, as produced by Python's `.2f` format
(sign, integer part, dot, two fractional digits). -/
def fmt2 (p : Rat) : String :=
  if centsOf p < 0 then "-" ++ fmtNat (centsOf p).natAbs
  else fmtNat (centsOf p).natAbs

/-- The exit_price CSV field: the source writes
`f-string of exit_price with .2f if exit_price else the empty string`,
guarding on Python truthiness, so both `None` and `0.0` render empty. -/
def renderExitPriceField (x : Option Rat) : String :=
  match x with
  | none => ""
  | some p => if p == 0 then "" else fmt2 p

/-- One serialized CSV row for a trade (timestamp formatting kept numeric). -/
def renderRow (t : Trade) : String :=
  String.intercalate ","
    [toString t.date, t.trade_type, t.symbol, t.strikes, t.entry_action,
     toString t.entry_time, fmt2 t.entry_price, t.exit_action,
     renderExitPriceField t.exit_price, fmt2 t.profit, t.status, t.strategy]

/-- The CSV header line of the ledger. -/
def ledgerHeader : String :=
  "date,trade_type,symbol,strikes,entry_action,entry_time,entry_price,exit_action,exit_price,profit,status,strategy"

/-- One run of the ledger writer on serialized lines: the file is opened in
append mode; the header is written first when the file did not exist
(`none`), and the pre-existing content is left untouched otherwise. -/
def appendLines (file : Option (List String)) (rows : List String) : List String :=
  match file with
  | none => ledgerHeader :: rows
  | some old => old ++ rows

/-- One run of the ledger writer on trades: one serialized row per trade is
appended. -/
def appendRun (file : Option (List String)) (trades : List Trade) : List String :=
  appendLines file (trades.map renderRow)

/-- A ledger row as read back by the dashboard (only the columns its
profit re-pairing touches are modelled). -/
structure Row where
  date : Nat
  trade_type : String
  symbol : String
  strikes : String
  entry_action : String
  entry_time : Nat
  entry_price : Rat
  profit : Rat
deriving DecidableEq

/-- The pandas groupby key of `load_data`: (date, trade_type, symbol, strikes). -/
def rowKey (r : Row) : Nat × String × String × String :=
  (r.date, r.trade_type, r.symbol, r.strikes)

/-- Profit reset performed by `df['profit'] = 0.0`. -/
def resetProfit (r : Row) : Row :=
  { r with profit := 0 }

/-- The distinct groupby keys. Pandas iterates them in sorted order; the
order is irrelevant to the result because groups are disjoint, and it is
modelled in first-appearance order. -/
def rowKeys (rows : List Row) : List (Nat × String × String × String) :=
  rows.foldl (fun ks r => keyInsert ks (rowKey r)) []

/-- Update of the profit cell of row index `i` (models
`df.loc[idx, 'profit'] = profit`). -/
def setProfitAt (rows : List Row) (i : Nat) (p : Rat) : List Row :=
  match rows.get? i with
  | some r => rows.set i { r with profit := p }
  | none => rows

/-- The profit assignments produced for one groupby key: the group's rows
(paired with their dataframe index) are sorted by entry_time, the BOT rows
and SLD rows are extracted in that order, the i-th BOT is paired with the
i-th SLD (stopping at the shorter list), and both indices of a pair are
assigned `(BOT.entry_price - SLD.entry_price) * 100`. -/
def groupAssignments (rows : List (Nat × Row)) (k : Nat × String × String × String) :
    List (Nat × Rat) :=
  let grp := rows.filter (fun ir => decide (rowKey ir.2 = k))
  let sortedGrp := List.insertionSort (fun a b => a.2.entry_time ≤ b.2.entry_time) grp
  let bots := sortedGrp.filter (fun ir => ir.2.entry_action == "BOT")
  let slds := sortedGrp.filter (fun ir => ir.2.entry_action == "SLD")
  ((bots.zip slds).map (fun bs =>
    let p := (bs.1.2.entry_price - bs.2.2.entry_price) * 100
    [(bs.1.1, p), (bs.2.1, p)])).flatten

/-- All profit assignments of one `load_data` run over reset rows. -/
def assignmentsOf (rows0 : List Row) : List (Nat × Rat) :=
  ((rowKeys rows0).map (groupAssignments rows0.enum)).flatten

/-- Application of all assignments to the reset rows. -/
def recomputeCore (rows0 : List Row) : List Row :=
  (assignmentsOf rows0).foldl (fun acc ip => setProfitAt acc ip.1 ip.2) rows0

/-- The profit re-derivation of `load_data`: every profit is reset to zero,
then the per-group BOT/SLD pairing assigns fresh profits. -/
def recomputeProfits (rows : List Row) : List Row :=
  recomputeCore (rows.map resetProfit)

/-- Group of the first example: entry via a combo priced -3.50 SLD at time 0,
closing bucket at time 1 holding a single SLD fill priced +1.00. -/
def exGroupA : List ExecRecord :=
  [⟨1, 0, "SLD", -7/2, "SPX", none, some "P"⟩,
   ⟨1, 1, "SLD", 1, "SPX", none, some "P"⟩]

/-- The closing bucket of `exGroupA`. -/
def exCloseA : List ExecRecord :=
  [⟨1, 1, "SLD", 1, "SPX", none, some "P"⟩]

/-- An opening bucket with legs only: one SLD leg priced 5.00 and one BOT leg
priced 1.50. -/
def exLegsOnly : List ExecRecord :=
  [⟨2, 0, "SLD", 5, "SPX", some 95, some "P"⟩,
   ⟨2, 0, "BOT", 3/2, "SPX", some 90, some "P"⟩]

/-- A two-leg opening bucket with a combo fill priced -3.50 SLD and two legs
priced 5.00 and 1.50, strikes 95 and 90. -/
def exComboBucket : List ExecRecord :=
  [⟨3, 0, "SLD", 5, "SPX", some 95, some "P"⟩,
   ⟨3, 0, "BOT", 3/2, "SPX", some 90, some "P"⟩,
   ⟨3, 0, "SLD", -7/2, "SPX", none, none⟩]

/-- A group whose closing fallback nets to exactly zero: entry combo -3.50,
closing fills SLD +2.00 and BOT +2.00. -/
def exZeroExit : List ExecRecord :=
  [⟨4, 0, "SLD", -7/2, "SPX", none, some "P"⟩,
   ⟨4, 1, "SLD", 2, "SPX", some 95, some "P"⟩,
   ⟨4, 1, "BOT", 2, "SPX", some 90, some "P"⟩]

/-- Fills with strikes 95 then 90. -/
def exStrikes9590 : List ExecRecord :=
  [⟨5, 0, "SLD", 1, "SPX", some 95, some "P"⟩,
   ⟨5, 0, "BOT", 1, "SPX", some 90, some "P"⟩]

/-- Fills with strikes 90 then 95. -/
def exStrikes9095 : List ExecRecord :=
  [⟨5, 0, "SLD", 1, "SPX", some 90, some "P"⟩,
   ⟨5, 0, "BOT", 1, "SPX", some 95, some "P"⟩]

/-- A single fill with strike 100. -/
def exStrike100 : List ExecRecord :=
  [⟨5, 0, "SLD", 1, "SPX", some 100, some "P"⟩]

/-- Fills with no strike attribute. -/
def exNoStrike : List ExecRecord :=
  [⟨5, 0, "SLD", 1, "SPX", none, none⟩]

/-- A single closing fill SLD priced +1.00 (drives the fallback exit price
negative). -/
def exCloseNeg : List ExecRecord :=
  [⟨6, 1, "SLD", 1, "SPX", none, none⟩]

/-- A one-bucket fill set: a lone SLD fill at one timestamp. -/
def exSingleBucket : List ExecRecord :=
  [⟨7, 0, "SLD", 5, "SPX", none, none⟩]

/-- The trade produced from `exSingleBucket` (still open; note the fallback
assigns action BOT because credit 5 exceeds debit 0). -/
def exSingleBucketTrade : Trade :=
  ⟨0, "unknown", "SPX", "unknown", "BOT", 0, 5, "", none, 0, "open", "S"⟩

/-- Ledger rows for the re-pairing example: three rows of one
(date, trade_type, symbol, strikes) group - a BOT at time 2 priced 3.50, an
SLD at time 1 priced 1.00, a BOT at time 3 priced 2.00 - plus one SLD row of
another group, all with nonzero ingestion-time profits. -/
def exRows : List Row :=
  [⟨0, "Bull Put", "SPX", "90/95", "BOT", 2, 7/2, 5⟩,
   ⟨0, "Bull Put", "SPX", "90/95", "SLD", 1, 1, 7⟩,
   ⟨0, "Bull Put", "SPX", "90/95", "BOT", 3, 2, 9⟩,
   ⟨0, "Bear Call", "SPX", "80/85", "SLD", 4, 3, 11⟩]

/-- Expected output of the re-pairing on `exRows`: the earliest BOT (index 0)
pairs with the earliest SLD (index 1), both get (3.50 - 1.00) * 100 = 250;
the unpaired rows (indices 2 and 3) keep the reset profit 0. -/
def exRowsOut : List Row :=
  [⟨0, "Bull Put", "SPX", "90/95", "BOT", 2, 7/2, 250⟩,
   ⟨0, "Bull Put", "SPX", "90/95", "SLD", 1, 1, 250⟩,
   ⟨0, "Bull Put", "SPX", "90/95", "BOT", 3, 2, 0⟩,
   ⟨0, "Bear Call", "SPX", "80/85", "SLD", 4, 3, 0⟩]

/-- Helper: rounding is exact on prices that are whole numbers of cents. -/
theorem centsOf_eq_num (p : Rat) (h : (p * 100).den = 1) :
    centsOf p = (p * 100).num := by
  have hcast : ((p * 100).num : Rat) = p * 100 := (Rat.den_eq_one_iff _).mp h
  rw [centsOf, ← hcast]
  have hhalf : ((1 : Rat) / 2) + ((p * 100).num : Rat) = ((p * 100).num : Rat) + 1 / 2 := by
    ring
  rw [← hhalf, Int.floor_add_int]
  norm_num

/-- Helper: a strictly negative exact-cents price has strictly negative cents. -/
theorem centsOf_neg (p : Rat) (hp : p < 0) (h : (p * 100).den = 1) :
    centsOf p < 0 := by
  rw [centsOf_eq_num p h]
  have : p * 100 < 0 := by
    have : (0 : Rat) < 100 := by norm_num
    exact mul_neg_of_neg_of_pos hp this
  exact Rat.num_neg.mpr this

/-- C1 counterexample: for the group `exGroupA` (entry price 3.50, closing
bucket a single SLD fill priced +1.00) the computed profit is 450.00, not
250.00 as the claim states: the fallback exit price is 0 - 1.00 = -1.00. -/
theorem claim_C1_counterexample :
    (processGroup "S" exGroupA).map Trade.profit = some 450 ∧
    (processGroup "S" exGroupA).map Trade.profit ≠ some 250 := by
  with_unfolding_all decide

/-- C1 (amended): for a trade group with entry_price 3.50 whose closing
bucket holds a single SLD fill priced +1.00, the closing-combo detection
does not fire (it requires a strictly negative price), the leg fallback is
taken with exit_price = 0 - 1.00 = -1.00 (the SLD sum lands in
closing_credit), and the computed profit is (3.50 - (-1.00)) * 100 =
450.00. -/
theorem claim_C1 :
    (exCloseA.filter (fun e => e.side == "SLD" && decide (e.price < 0))) = [] ∧
    exitInfo exCloseA = ⟨-1, "SLD"⟩ ∧
    processGroup "S" exGroupA =
      some ⟨0, "Bull Put", "SPX", "unknown", "SLD", 0, 7/2, "SLD", some (-1),
            450, "closed", "S"⟩ := by
  with_unfolding_all decide

/-- C2 counterexample: for an opening bucket with only a SLD leg priced 5.00
and a BOT leg priced 1.50, the synthesized entry action is BOT (the source
assigns 'BOT' when credit exceeds debit), not SELL as the claim states. -/
theorem claim_C2_counterexample :
    (processGroup "S" exLegsOnly).map Trade.entry_action = some "BOT" ∧
    (processGroup "S" exLegsOnly).map Trade.entry_action ≠ some "SLD" := by
  with_unfolding_all decide

/-- C2 (amended): for an opening bucket containing only leg fills, one SLD
leg priced 5.00 and one BOT leg priced 1.50, the synthesized trade has
entry_price = |5.00 - 1.50| = 3.50 and entry_action = BOT (the code writes
BUY, not SELL, when credit exceeds debit). -/
theorem claim_C2 :
    processGroup "S" exLegsOnly =
      some ⟨0, "Bull Put", "SPX", "90/95", "BOT", 0, 7/2, "", none, 0,
            "open", "S"⟩ := by
  with_unfolding_all decide

/-- C9: the ledger writer appends one serialized row per trade; pre-existing
content is returned verbatim with the new rows appended (never read,
modified, or deduplicated, and no header is ever rewritten); the header line
is written exactly when the file does not yet exist, so across a first run
and a second run against the resulting file the header occurs exactly
once. -/
theorem claim_C9 :
    (∀ (old rows : List String), appendLines (some old) rows = old ++ rows) ∧
    (∀ rows : List String, appendLines none rows = ledgerHeader :: rows) ∧
    (∀ (old : List String) (trades : List Trade),
       (appendRun (some old) trades).length = old.length + trades.length) ∧
    (∀ r1 r2 : List String, ledgerHeader ∉ r1 → ledgerHeader ∉ r2 →
       (appendLines (some (appendLines none r1)) r2).count ledgerHeader = 1) := by
  refine ⟨fun old rows => rfl, fun rows => rfl, ?_, ?_⟩
  · intro old trades
    simp [appendRun, appendLines]
  · intro r1 r2 h1 h2
    have e1 : r1.count ledgerHeader = 0 := List.count_eq_zero.mpr h1
    have e2 : r2.count ledgerHeader = 0 := List.count_eq_zero.mpr h2
    simp [appendLines, List.count_append, List.count_cons_self, e1, e2]

/-- C9 witness: a concrete first run followed by a second run against the
produced file leaves exactly one header line. -/
theorem claim_C9_witness :
    (appendLines (some (appendLines none ["r1"])) ["r2"]).count ledgerHeader = 1 :=
  claim_C9.2.2.2 ["r1"] ["r2"] (by decide) (by decide)

/-- C10: the serialized exit_price field guards on truthiness, so both a
missing exit price and a computed exit price of exactly 0 render as the
empty string (shown on a concrete closed trade whose closing fallback nets
to zero), while a strictly negative exact-cents exit price renders as a
minus sign followed by the two-decimal magnitude (e.g. -1.00 renders as
"-1.00"). -/
theorem claim_C10 :
    renderExitPriceField none = "" ∧
    renderExitPriceField (some 0) = "" ∧
    (processGroup "S" exZeroExit).map
        (fun t => (t.status, t.exit_price, renderExitPriceField t.exit_price)) =
      some ("closed", some 0, "") ∧
    renderExitPriceField (some (-1)) = "-1.00" ∧
    (∀ p : Rat, p < 0 → (p * 100).den = 1 →
       renderExitPriceField (some p) = "-" ++ fmtNat (centsOf p).natAbs) := by
  refine ⟨rfl, by with_unfolding_all decide, by with_unfolding_all decide,
          by with_unfolding_all decide, ?_⟩
  intro p hp hden
  have hne : (p == 0) = false := beq_eq_false_iff_ne.mpr (ne_of_lt hp)
  have hc : centsOf p < 0 := centsOf_neg p hp hden
  simp only [renderExitPriceField, hne, Bool.false_eq_true, if_false, fmt2, if_pos hc]

/-- C10 witness: the general negative-rendering clause applied at the
exact-cents price -1. -/
theorem claim_C10_witness :
    renderExitPriceField (some (-1)) = "-" ++ fmtNat (centsOf (-1)).natAbs :=
  claim_C10.2.2.2.2 (-1) (by norm_num) (by with_unfolding_all decide)

/-- C3: for every nonempty opening bucket containing no strictly negative
price, the entry derivation takes the leg fallback: with credit the sum of
SLD prices and debit the sum of BOT prices of the bucket, entry_price is
|credit - debit| and entry_action is BOT when credit > debit and SLD
otherwise, so the tie credit = debit defaults to SLD. -/
theorem claim_C3 (opening : List ExecRecord) (hne : opening ≠ [])
    (hnoneg : ∀ e ∈ opening, ¬ e.price < 0) :
    (entryInfo opening).map EntryInfo.price =
      some (|openingCredit opening - openingDebit opening|) ∧
    (entryInfo opening).map EntryInfo.action =
      some (if openingCredit opening > openingDebit opening then "BOT"
            else "SLD") ∧
    (openingCredit opening = openingDebit opening →
      (entryInfo opening).map EntryInfo.action = some "SLD") := by
  have hfilter : opening.filter (fun e => decide (e.price < 0)) = [] := by
    rw [List.filter_eq_nil_iff]
    intro a ha
    simpa using hnoneg a ha
  have hcombo : comboOf opening = none := by
    rw [comboOf, hfilter]
    rfl
  have hlegs : legsOf opening = opening := by
    rw [legsOf, List.filter_eq_self]
    intro a ha
    simpa using hnoneg a ha
  cases opening with
  | nil => exact absurd rfl hne
  | cons a l =>
    have hei : entryInfo (a :: l) =
        some ⟨a.symbol, a.time,
              |openingCredit (a :: l) - openingDebit (a :: l)|,
              if openingCredit (a :: l) > openingDebit (a :: l) then "BOT"
              else "SLD"⟩ := by
      rw [entryInfo, hcombo, hlegs]
      rfl
    rw [hei]
    refine ⟨rfl, rfl, ?_⟩
    intro htie
    rw [htie]
    simp

/-- C3 witness: the fallback derivation evaluated on the two-leg bucket with
a SLD leg priced 5.00 and a BOT leg priced 1.50. -/
theorem claim_C3_witness :
    (entryInfo exLegsOnly).map EntryInfo.price =
      some (|openingCredit exLegsOnly - openingDebit exLegsOnly|) ∧
    (entryInfo exLegsOnly).map EntryInfo.action =
      some (if openingCredit exLegsOnly > openingDebit exLegsOnly then "BOT"
            else "SLD") :=
  ⟨(claim_C3 exLegsOnly (by decide) (by with_unfolding_all decide)).1,
   (claim_C3 exLegsOnly (by decide) (by with_unfolding_all decide)).2.1⟩

/-- C4: for every closing bucket with no fill that is both SLD and strictly
negatively priced, the exit fallback is taken: exit_price is
closing_debit - closing_credit (signed, hence possibly negative - witnessed
by the concrete bucket `exCloseNeg`, where it is -1.00) and exit_action is
SLD when closing_credit > closing_debit and BOT otherwise. -/
theorem claim_C4 :
    (∀ closing : List ExecRecord,
       (∀ e ∈ closing, ¬(e.side = "SLD" ∧ e.price < 0)) →
       exitInfo closing =
         ⟨closingDebitOf closing - closingCreditOf closing,
          if closingCreditOf closing > closingDebitOf closing then "SLD"
          else "BOT"⟩) ∧
    (exitInfo exCloseNeg).price < 0 := by
  constructor
  · intro closing h
    have hfilter :
        closing.filter (fun e => e.side == "SLD" && decide (e.price < 0)) = [] := by
      rw [List.filter_eq_nil_iff]
      intro a ha
      simpa using h a ha
    rw [exitInfo, hfilter]
    rfl
  · with_unfolding_all decide

/-- C4 witness: the fallback exit derivation evaluated on the concrete
bucket holding one SLD fill priced +1.00 and one BOT fill priced +2.00. -/
theorem claim_C4_witness :
    exitInfo [⟨8, 1, "SLD", 1, "SPX", none, none⟩,
              ⟨8, 1, "BOT", 2, "SPX", none, none⟩] =
      ⟨closingDebitOf [⟨8, 1, "SLD", 1, "SPX", none, none⟩,
                       ⟨8, 1, "BOT", 2, "SPX", none, none⟩] -
       closingCreditOf [⟨8, 1, "SLD", 1, "SPX", none, none⟩,
                        ⟨8, 1, "BOT", 2, "SPX", none, none⟩],
       if closingCreditOf [⟨8, 1, "SLD", 1, "SPX", none, none⟩,
                           ⟨8, 1, "BOT", 2, "SPX", none, none⟩] >
          closingDebitOf [⟨8, 1, "SLD", 1, "SPX", none, none⟩,
                          ⟨8, 1, "BOT", 2, "SPX", none, none⟩] then "SLD"
       else "BOT"⟩ :=
  claim_C4.1 _ (by with_unfolding_all decide)

/-- C5: within an opening bucket the classification loop sends a fill to the
leg list exactly when its price is not strictly negative (so a fill is
treated as combo exactly when its price is strictly negative); a combo
execution is retained exactly when some fill has strictly negative price;
the retained combo fill belongs to the bucket, has strictly negative price,
and supplies the symbol, timestamp, entry_price = |combo.price| and
entry_action = combo.side; on the spec's example bucket (combo -3.50 SLD
plus legs 5.00 and 1.50) this yields entry_action SLD and entry_price
3.50. -/
theorem claim_C5 :
    (∀ (opening : List ExecRecord) (e : ExecRecord),
       e ∈ legsOf opening ↔ e ∈ opening ∧ ¬ e.price < 0) ∧
    (∀ opening : List ExecRecord,
       (comboOf opening).isSome ↔ ∃ e ∈ opening, e.price < 0) ∧
    (∀ (opening : List ExecRecord) (c : ExecRecord), comboOf opening = some c →
       c ∈ opening ∧ c.price < 0 ∧
       entryInfo opening = some ⟨c.symbol, c.time, |c.price|, c.side⟩) ∧
    processGroup "S" exComboBucket =
      some ⟨0, "Bull Put", "SPX", "90/95", "SLD", 0, 7/2, "", none, 0,
            "open", "S"⟩ := by
  refine ⟨?_, ?_, ?_, by with_unfolding_all decide⟩
  · intro opening e
    simp [legsOf, List.mem_filter]
  · intro opening
    rw [comboOf, List.getLast?_isSome, ne_eq, List.filter_eq_nil_iff]
    push_neg
    simp
  · intro opening c h
    have hmem : c ∈ opening.filter (fun e => decide (e.price < 0)) := by
      obtain ⟨hne, hEq⟩ :=
        List.mem_getLast?_eq_getLast (Option.mem_def.mpr h)
      rw [hEq]
      exact List.getLast_mem hne
    rw [List.mem_filter] at hmem
    refine ⟨hmem.1, by simpa using hmem.2, ?_⟩
    simp only [entryInfo, h]

/-- C5 witness: the combo clauses applied to the example bucket, whose combo
is its last fill, priced -3.50 with side SLD. -/
theorem claim_C5_witness :
    ⟨3, 0, "SLD", -7/2, "SPX", none, none⟩ ∈ exComboBucket ∧
    (⟨3, 0, "SLD", -7/2, "SPX", none, none⟩ : ExecRecord).price < 0 ∧
    entryInfo exComboBucket = some ⟨"SPX", 0, |(-7/2 : Rat)|, "SLD"⟩ :=
  claim_C5.2.2.1 exComboBucket ⟨3, 0, "SLD", -7/2, "SPX", none, none⟩
    (by with_unfolding_all decide)

/-- Helper: the dict-key fold leaves the accumulator unchanged once every
time of the list is already a key. -/
theorem foldl_keyInsert_fixed (m : List ExecRecord) :
    ∀ ks : List Nat, (∀ e ∈ m, e.time ∈ ks) →
      m.foldl (fun ks e => keyInsert ks e.time) ks = ks := by
  induction m with
  | nil => intro ks _; rfl
  | cons a l ih =>
    intro ks hks
    rw [List.foldl_cons]
    have ha : keyInsert ks a.time = ks := by
      rw [keyInsert, if_pos (hks a (List.mem_cons_self a l))]
    rw [ha]
    exact ih ks (fun e he => hks e (List.mem_cons_of_mem a he))

/-- Helper: a nonempty fill list all of whose fills share one execution time
has that time as its only dict key. -/
theorem timeKeys_const (m : List ExecRecord) (t : Nat) (hne : m ≠ [])
    (hall : ∀ e ∈ m, e.time = t) : timeKeys m = [t] := by
  cases m with
  | nil => exact absurd rfl hne
  | cons a l =>
    rw [timeKeys, List.foldl_cons]
    have h0 : keyInsert [] a.time = [a.time] := by
      rw [keyInsert, if_neg (List.not_mem_nil a.time)]
      rfl
    rw [h0, hall a (List.mem_cons_self a l)]
    exact foldl_keyInsert_fixed l [t]
      (fun e he => by
        rw [hall e (List.mem_cons_of_mem a he)]
        exact List.mem_singleton.mpr rfl)

/-- Helper: a nonempty fill list with a single shared execution time forms a
single time-bucket, the list itself. -/
theorem timeGroups_const (m : List ExecRecord) (t : Nat) (hne : m ≠ [])
    (hall : ∀ e ∈ m, e.time = t) : timeGroups m = [m] := by
  rw [timeGroups, timeKeys_const m t hne hall, List.map_singleton]
  congr 1
  rw [List.filter_eq_self]
  intro a ha
  simp [hall a ha]

/-- Helper: a group whose fills all share one execution time synthesizes an
open trade: status "open", empty exit action, no exit price, profit 0. -/
theorem processGroup_const_time (strat : String) (g : List ExecRecord)
    (t : Trade) (huni : ∀ e ∈ g, ∀ e' ∈ g, e.time = e'.time)
    (hp : processGroup strat g = some t) :
    t.status = "open" ∧ t.exit_action = "" ∧ t.exit_price = none ∧
      t.profit = 0 := by
  cases g with
  | nil =>
    rw [show processGroup strat [] = none from rfl] at hp
    exact Option.noConfusion hp
  | cons a l =>
    have hperm := List.perm_insertionSort
      (fun x y : ExecRecord => x.time ≤ y.time) (a :: l)
    have hne : sortByTime (a :: l) ≠ [] := by
      intro h0
      rw [sortByTime] at h0
      rw [h0] at hperm
      exact List.cons_ne_nil a l (hperm.symm.eq_nil)
    have htime : ∀ e ∈ sortByTime (a :: l), e.time = a.time := by
      intro e he
      have hmem : e ∈ a :: l := hperm.mem_iff.mp he
      exact huni e hmem a (List.mem_cons_self a l)
    have htg : timeGroups (sortByTime (a :: l)) = [sortByTime (a :: l)] :=
      timeGroups_const _ a.time hne htime
    cases he : entryInfo (sortByTime (a :: l)) with
    | none =>
      simp only [processGroup, htg, he, List.head?] at hp
      exact Option.noConfusion hp
    | some ei =>
      simp only [processGroup, htg, he, List.head?] at hp
      obtain rfl := Option.some.inj hp
      exact ⟨rfl, rfl, rfl, rfl⟩

/-- C6: for every fill set in which fills sharing a permanent id always
share one execution time (a single time-bucket per order), every synthesized
trade is open: status "open" (lowercase), an exit_price that serializes to
the empty string, an empty exit_action, and profit 0. -/
theorem claim_C6 (strat : String) (execs : List ExecRecord)
    (h : ∀ e ∈ execs, ∀ e' ∈ execs, e.permId = e'.permId → e.time = e'.time) :
    ∀ t ∈ collectTrades strat execs,
      t.status = "open" ∧ renderExitPriceField t.exit_price = "" ∧
        t.exit_action = "" ∧ t.profit = 0 := by
  intro t ht
  rw [collectTrades] at ht
  obtain ⟨p, _, hpg⟩ := List.mem_filterMap.mp ht
  have huni : ∀ e ∈ permGroup execs p, ∀ e' ∈ permGroup execs p,
      e.time = e'.time := by
    intro e he e' he'
    rw [permGroup, List.mem_filter] at he he'
    have hep : e.permId = p := by simpa using he.2
    have hep' : e'.permId = p := by simpa using he'.2
    exact h e he.1 e' he'.1 (hep.trans hep'.symm)
  obtain ⟨h1, h2, h3, h4⟩ := processGroup_const_time strat _ t huni hpg
  exact ⟨h1, by rw [h3]; rfl, h2, h4⟩

/-- C6 witness: the one-bucket fill set `exSingleBucket` produces the open
trade `exSingleBucketTrade`, whose exit fields are empty and profit zero. -/
theorem claim_C6_witness :
    exSingleBucketTrade.status = "open" ∧
    renderExitPriceField exSingleBucketTrade.exit_price = "" ∧
    exSingleBucketTrade.exit_action = "" ∧ exSingleBucketTrade.profit = 0 :=
  claim_C6 "S" exSingleBucket (by decide) exSingleBucketTrade
    (by with_unfolding_all decide)

/-- C7: the strikes of all fills carrying a strike attribute are collected as
integers and sorted ascending (the sorted list is a sorted permutation of
the collected strikes); the rendered string uses at most the first two
sorted values - "low/high" from the two smallest when two or more exist, the
single value when one exists, the literal "unknown" when none - and whenever
the sorted list starts a :: b :: rest, a is a lower bound of every collected
strike and b of the remaining ones; strikes 95 and 90 render as "90/95" in
either input order, a single strike 100 renders as "100", and no strikes
render as "unknown". -/
theorem claim_C7 :
    (∀ opening : List ExecRecord,
       (sortedStrikes opening).Perm (collectStrikes opening)) ∧
    (∀ opening : List ExecRecord,
       (sortedStrikes opening).Sorted (fun a b => a ≤ b)) ∧
    (∀ opening : List ExecRecord, strikesStr opening =
       match sortedStrikes opening with
       | [] => "unknown"
       | [a] => toString a
       | a :: b :: _ => toString a ++ "/" ++ toString b) ∧
    (∀ (opening : List ExecRecord) (a b : Int) (rest : List Int),
       sortedStrikes opening = a :: b :: rest →
       a ≤ b ∧ (∀ x ∈ collectStrikes opening, a ≤ x) ∧ ∀ x ∈ rest, b ≤ x) ∧
    strikesStr exStrikes9590 = "90/95" ∧ strikesStr exStrikes9095 = "90/95" ∧
    strikesStr exStrike100 = "100" ∧ strikesStr exNoStrike = "unknown" := by
  have hperm : ∀ opening : List ExecRecord,
      (sortedStrikes opening).Perm (collectStrikes opening) :=
    fun opening => List.perm_insertionSort _ _
  have hsorted : ∀ opening : List ExecRecord,
      (sortedStrikes opening).Sorted (fun a b => a ≤ b) :=
    fun opening => List.sorted_insertionSort _ _
  refine ⟨hperm, hsorted, fun opening => rfl, ?_, by with_unfolding_all decide,
          by with_unfolding_all decide, by with_unfolding_all decide,
          by with_unfolding_all decide⟩
  intro opening a b rest hs
  have hsrt := hsorted opening
  rw [hs, List.sorted_cons] at hsrt
  have hab : a ≤ b := hsrt.1 b (List.mem_cons_self b rest)
  have hrest : ∀ x ∈ rest, b ≤ x := by
    have := hsrt.2
    rw [List.sorted_cons] at this
    exact this.1
  refine ⟨hab, ?_, hrest⟩
  intro x hx
  have hx' : x ∈ a :: b :: rest := by
    rw [← hs]
    exact ((hperm opening).symm.mem_iff).mp hx
  rcases List.mem_cons.mp hx' with h1 | h1
  · exact le_of_eq h1.symm
  · exact hsrt.1 x h1

/-- C7 witness: the lower-bound clause evaluated on the bucket with strikes
95 and 90, whose sorted strike list is 90 :: 95 :: []. -/
theorem claim_C7_witness :
    (90 : Int) ≤ 95 ∧ strikesStr exStrikes9590 = "90/95" :=
  ⟨(claim_C7.2.2.2.1 exStrikes9590 90 95 [] (by with_unfolding_all decide)).1,
   claim_C7.2.2.2.2.1⟩

/-- Helper: writing a profit cell at one index leaves every other index
unchanged. -/
theorem setProfitAt_get?_ne (rows : List Row) (j i : Nat) (p : Rat)
    (h : i ≠ j) : (setProfitAt rows j p).get? i = rows.get? i := by
  rw [setProfitAt]
  cases hj : rows.get? j with
  | none => rfl
  | some r =>
    rw [List.get?_eq_getElem?, List.get?_eq_getElem?,
        List.getElem?_set_ne (Ne.symm h)]

/-- Helper: applying a list of profit assignments leaves every index that
none of them targets unchanged. -/
theorem foldl_setProfitAt_get? (asg : List (Nat × Rat)) (acc : List Row)
    (i : Nat) (h : i ∉ asg.map Prod.fst) :
    (asg.foldl (fun a ip => setProfitAt a ip.1 ip.2) acc).get? i =
      acc.get? i := by
  induction asg generalizing acc with
  | nil => rfl
  | cons hd tl ih =>
    rw [List.map_cons, List.mem_cons] at h
    push_neg at h
    rw [List.foldl_cons, ih _ h.2, setProfitAt_get?_ne acc hd.1 i hd.2 h.1]

/-- C8: the dashboard's re-pairing resets every profit before pairing, so
its output is independent of whatever profit the ingestion stage wrote;
every row index not targeted by a pairing assignment keeps its reset row
(profit 0) verbatim; and on the concrete ledger `exRows` the earliest BOT
row pairs with the earliest SLD row of its (date, trade_type, symbol,
strikes) group, both receive (BUY.entry_price - SELL.entry_price) * 100 =
250, and the unpaired rows end with profit 0. -/
theorem claim_C8 :
    (∀ (rows : List Row) (f : Row → Rat),
       recomputeProfits (rows.map (fun r => { r with profit := f r })) =
         recomputeProfits rows) ∧
    (∀ (rows : List Row) (i : Nat),
       i ∉ (assignmentsOf (rows.map resetProfit)).map Prod.fst →
       (recomputeProfits rows).get? i = (rows.map resetProfit).get? i) ∧
    recomputeProfits exRows = exRowsOut := by
  refine ⟨?_, ?_, by with_unfolding_all decide⟩
  · intro rows f
    rw [recomputeProfits, recomputeProfits, List.map_map]
    congr 1
  · intro rows i h
    exact foldl_setProfitAt_get? _ _ _ h

/-- C8 witness: index 2 of `exRows` (the surplus BOT row) is untargeted by
the pairing and keeps its reset row. -/
theorem claim_C8_witness :
    (recomputeProfits exRows).get? 2 = (exRows.map resetProfit).get? 2 :=
  claim_C8.2.1 exRows 2 (by with_unfolding_all decide)
